import Mathlib

/-!
Verification of the template placeholder parser (`src/template.rs`) of the
`how` command-snippet manager.

The parser scans a line of text once, left to right, turning bracketed
placeholder fields such as `[default#description#2]` into a structured
`TemplatedCommand`: a display string, an ordered list of literal/input
sections holding ranges into the display string, and a resolved navigation
order over the input sections.

Every definition below is a direct shallow embedding of the Rust source:
  - `read_digit`        models `IncrementalU8::read_digit` (the u8 value is a
    `Nat`; the `checked_mul`/`checked_add` calls are the two `Option` checks
    against the u8 bound 255),
  - `State`             models the `ir::State` phase enum (ranges are
    `Nat × Nat` start/stop pairs into the display string),
  - `step`              models one iteration of the `for c in s.chars()` loop
    of `fn parse`, including the escape flag and the deferred
    `to_push`/backslash pushes of lines 192-197 (`pushPending`),
  - `insertIndex`       models `HashMap::entry(..).or_default().push(..)` on an
    association list kept in first-insertion order,
  - `sortByKey`         models `.into_iter().sorted()` on the map (keys are
    unique, so sorting the pairs is sorting by key),
  - `fillWhile` / `resolveOrder` model the post-scan order-resolution loop
    (the `while` that pops `unassigned_inputs` and the final `extend`);
    `unassigned_inputs` is kept in declaration order, so the source's
    `reverse` / `Vec::pop` (which pops from the back) is front popping here,
    and the second `reverse` before `extend` is the identity,
  - `parse`             is `fn parse`.
-/

namespace How

/-- Error type of the parser, modelling `enum Error` of the source.  The
source attaches these display messages: `BracketInBracket` "found bracket
within bracket", `UnbalancedBrackets` "unbalanced bracket templates",
`InvalidNumber` "invalid input index: must be a positive integer",
`OverflowingNumber` "invalid input index: number too large",
`MissingNumber` "no input index given: remove the second '#' for automatic
index", `TooManyFields` "too many hashes in input". -/
inductive Error
  | BracketInBracket
  | UnbalancedBrackets
  | InvalidNumber
  | OverflowingNumber
  | MissingNumber
  | TooManyFields
deriving DecidableEq, Repr

/-- Models `IncrementalU8::read_digit` (template.rs lines 49-61).  The
accumulator is a `Nat` that the checks keep within the u8 range `0..=255`.
`c.to_digit(10)` is the `isDigit` guard; `checked_mul(10)` and
`checked_add(digit)` are the two bound checks, `and_then`-chained exactly as
in the source, with `ok_or(Error::OverflowingNumber)` on the combined
`Option`. -/
def read_digit (v : Nat) (c : Char) : Except Error Nat :=
  match (if c.isDigit then some (c.toNat - 48) else none) with
  | none => Except.error Error.InvalidNumber
  | some digit =>
    match (if v * 10 ≤ 255 then some (v * 10) else none).bind
        (fun i => if i + digit ≤ 255 then some (i + digit) else none) with
    | none => Except.error Error.OverflowingNumber
    | some r => Except.ok r

/-- Models `enum TemplateSection`.  A `Range<usize>` is a start/stop pair
into the display string; the description is a list of characters. -/
inductive TemplateSection
  | Literal (range : Nat × Nat)
  | Input (range : Nat × Nat) (description : List Char)
deriving DecidableEq, Repr

/-- Models `struct TemplatedCommand`. -/
structure TemplatedCommand where
  display : List Char
  sections : List TemplateSection
  /-- Order in which to jump to an input: indices into `sections`. -/
  input_order : List (List Nat)
deriving DecidableEq, Repr

/-- Models `TemplatedCommand::push_input`. -/
def push_input (t : TemplatedCommand) (range : Nat × Nat)
    (description : List Char) : TemplatedCommand :=
  { t with sections := t.sections ++ [TemplateSection.Input range description] }

/-- Models `TemplatedCommand::push_literal`. -/
def push_literal (t : TemplatedCommand) (range : Nat × Nat) : TemplatedCommand :=
  { t with sections := t.sections ++ [TemplateSection.Literal range] }

/-- Models `ir::State`, the parser's phase. -/
inductive State
  | Literal (start : Nat)
  | Default (start : Nat)
  | Description (range : Nat × Nat) (desc : List Char)
  | Index (range : Nat × Nat) (desc : List Char) (idx : Option Nat)
deriving DecidableEq, Repr

/-- The mutable locals of `fn parse`'s scanning loop, as one record.
`to_push` is omitted: it is `None` at the start of every iteration (it is
`take`n at the end of each one), so it lives inside `step` only. -/
structure ParseSt where
  is_escaped : Bool
  input_state : State
  unassigned_inputs : List Nat
  input_indexes : List (Nat × List Nat)
  template : TemplatedCommand
deriving DecidableEq, Repr

/-- The four syntax-significant characters of the escape arm
`('[' | ']' | '#' | '\\', _) if is_escaped` (line 121). -/
def isReserved (c : Char) : Bool :=
  c == '[' || c == ']' || c == '#' || c == '\\'

/-- Models `HashMap::entry(k).or_default().push(v)` on an association list:
append `v` to the existing entry for `k`, or add a fresh `(k, [v])` entry. -/
def insertIndex (k v : Nat) : List (Nat × List Nat) → List (Nat × List Nat)
  | [] => [(k, [v])]
  | (k2, vs) :: rest =>
    if k = k2 then (k2, vs ++ [v]) :: rest else (k2, vs) :: insertIndex k v rest

/-- Models the end of each loop iteration (template.rs lines 192-197): if the
previous character was a `\` that escaped nothing, push a literal backslash
and clear the flag; then push the buffered `to_push` character, if any. -/
def pushPending (p : ParseSt) (to_push : Option Char) : ParseSt :=
  if p.is_escaped then
    { p with
      is_escaped := false,
      template := { p.template with
        display := p.template.display ++ ['\\'] ++ to_push.toList } }
  else
    { p with template := { p.template with
        display := p.template.display ++ to_push.toList } }

/-- One iteration of the `for c in s.chars()` loop of `fn parse`
(template.rs lines 118-198).  The source's single `match (c, &mut
input_state)` is regrouped by phase after the two escape arms; each branch is
tagged with the source lines it models.  Arms that `return Err(..)` skip the
trailing push block, matching the early `return`; the `\\` arm's `continue`
also skips it. -/
def step (p : ParseSt) (c : Char) : Except Error ParseSt :=
  -- lines 121-124: an escaped reserved character is pushed literally
  if p.is_escaped && isReserved c then
    Except.ok (pushPending { p with is_escaped := false } (some c))
  -- lines 125-128: a backslash arms the escape flag (`continue`)
  else if c = '\\' then
    Except.ok { p with is_escaped := true }
  else
    match p.input_state with
    | State.Literal start =>
      if c = '[' then
        -- lines 131-137: close the literal run (omit it when empty) and open
        -- a field.  `push_literal` leaves `display` unchanged, so the new
        -- `Default` offset is the source's `template.display.len()`.
        Except.ok (pushPending { p with
          template := if start < p.template.display.length
            then push_literal p.template (start, p.template.display.length)
            else p.template,
          input_state := State.Default p.template.display.length } none)
      else if c = ']' then
        -- line 152
        Except.error Error.UnbalancedBrackets
      else
        -- line 183 (`#` in a literal falls here too, line 149)
        Except.ok (pushPending p (some c))
    | State.Default start =>
      if c = '[' then
        -- line 138
        Except.error Error.BracketInBracket
      else if c = '#' then
        -- lines 140-142
        Except.ok (pushPending { p with
          input_state := State.Description (start, p.template.display.length) [] } none)
      else if c = ']' then
        -- lines 154-159: record the upcoming section index as unassigned,
        -- push the input section, reopen a literal run
        Except.ok (pushPending { p with
          unassigned_inputs := p.unassigned_inputs ++ [p.template.sections.length],
          template := push_input p.template (start, p.template.display.length) [],
          input_state := State.Literal p.template.display.length } none)
      else
        -- line 183
        Except.ok (pushPending p (some c))
    | State.Description range desc =>
      if c = '[' then
        -- line 138
        Except.error Error.BracketInBracket
      else if c = '#' then
        -- lines 144-146
        Except.ok (pushPending { p with
          input_state := State.Index range desc none } none)
      else if c = ']' then
        -- lines 161-165
        Except.ok (pushPending { p with
          unassigned_inputs := p.unassigned_inputs ++ [p.template.sections.length],
          template := push_input p.template range desc,
          input_state := State.Literal p.template.display.length } none)
      else
        -- line 189
        Except.ok (pushPending { p with
          input_state := State.Description range (desc ++ [c]) } none)
    | State.Index range desc idx =>
      if c = '[' then
        -- line 138
        Except.error Error.BracketInBracket
      else if c = '#' then
        -- line 148
        Except.error Error.TooManyFields
      else if c = ']' then
        match idx with
        | none =>
          -- lines 167-168: `[a#b#]` style input
          Except.error Error.InvalidNumber
        | some i =>
          if i = 0 then
            -- lines 169-172: explicit index 0
            Except.error Error.MissingNumber
          else
            -- lines 173-180
            Except.ok (pushPending { p with
              input_indexes := insertIndex i p.template.sections.length p.input_indexes,
              template := push_input p.template range desc,
              input_state := State.Literal p.template.display.length } none)
      else
        -- lines 185-187: `idx.unwrap_or_default().read_digit(c)?`
        match read_digit (idx.getD 0) c with
        | Except.error e => Except.error e
        | Except.ok v => Except.ok (pushPending { p with
            input_state := State.Index range desc (some v) } none)

/-- The scanning loop of `fn parse`, folding `step` over the characters. -/
def parseChars : ParseSt → List Char → Except Error ParseSt
  | p, [] => Except.ok p
  | p, c :: cs =>
    match step p c with
    | Except.error e => Except.error e
    | Except.ok p2 => parseChars p2 cs

/-- The initial values of `fn parse`'s locals (lines 108-116). -/
def initSt : ParseSt :=
  { is_escaped := false
    input_state := State.Literal 0
    unassigned_inputs := []
    input_indexes := []
    template := { display := [], sections := [], input_order := [] } }

/-- Insert a keyed group into a list sorted by key (ascending). -/
def sortInsert (q : Nat × List Nat) : List (Nat × List Nat) → List (Nat × List Nat)
  | [] => [q]
  | r :: rest => if q.1 ≤ r.1 then q :: r :: rest else r :: sortInsert q rest

/-- Models `input_indexes.into_iter().map(..).sorted()` (lines 204-208): the
map's keys are unique, so sorting the `(key, group)` pairs is exactly sorting
by key. -/
def sortByKey (l : List (Nat × List Nat)) : List (Nat × List Nat) :=
  l.foldr sortInsert []

/-- Models the gap-fill `while` of lines 211-215: while the current key is
less than the number of groups emitted so far, pop the next unassigned input
(the source pops from the back of the reversed vector, i.e. from the front in
declaration order) and emit it as a singleton group. -/
def fillWhile (key : Nat) : List (List Nat) → List Nat → List (List Nat) × List Nat
  | order, [] => (order, [])
  | order, u :: rest =>
    if key < order.length then fillWhile key (order ++ [[u]]) rest
    else (order, u :: rest)

/-- Models the resolution `for` loop of lines 204-217 plus the trailing
`extend` of lines 220-223: for each sorted `(key, group)` pair run the
gap-fill `while`, then emit the group; finally emit every remaining
unassigned input as its own singleton group, in declaration order. -/
def resolveOrder : List (Nat × List Nat) → List (List Nat) → List Nat → List (List Nat)
  | [], order, unassigned => order ++ unassigned.map (fun i => [i])
  | (_key, secs) :: rest, order, unassigned =>
    resolveOrder rest ((fillWhile _key order unassigned).1 ++ [secs])
      (fillWhile _key order unassigned).2

/-- Models `fn parse` (template.rs lines 107-226): run the scanning loop,
then resolve the navigation order.  Note the source performs no end-of-input
check on `input_state` or `is_escaped` before returning `Ok`. -/
def parse (s : List Char) : Except Error TemplatedCommand :=
  match parseChars initSt s with
  | Except.error e => Except.error e
  | Except.ok p =>
    Except.ok { p.template with
      input_order := resolveOrder (sortByKey p.input_indexes)
        p.template.input_order p.unassigned_inputs }

/-- Range of a section, for stating the partition invariant. -/
def sectionRange : TemplateSection → Nat × Nat
  | TemplateSection.Literal r => r
  | TemplateSection.Input r _ => r

/-- `coversFrom pos secs len` holds when the section ranges, read left to
right, tile `pos..len` exactly: each range starts where the previous one
stopped, never runs backwards, and the last one stops at `len`. -/
def coversFrom : Nat → List TemplateSection → Nat → Bool
  | pos, [], len => pos == len
  | pos, s :: rest, len =>
    ((sectionRange s).1 == pos) && decide (pos ≤ (sectionRange s).2)
      && coversFrom (sectionRange s).2 rest len

/-- The spec's partition half of the balance invariant: the section ranges
partition the display string left to right with no gaps or overlaps. -/
def rangesPartition (t : TemplatedCommand) : Bool :=
  coversFrom 0 t.sections t.display.length

/-- Invariant of the scanning loop used for the navigation-order claims:
every group recorded in `input_indexes` lists its section indices in
strictly increasing order (section indices are handed out left to right, so
this is declaration order) and every such index points below the current end
of the section list. -/
def IndexesInv (p : ParseSt) : Prop :=
  ∀ kl ∈ p.input_indexes,
    List.Chain' (· < ·) kl.2 ∧ ∀ i ∈ kl.2, i < p.template.sections.length

/-- The pending-push block never touches the index map. -/
theorem pushPending_input_indexes (p : ParseSt) (t : Option Char) :
    (pushPending p t).input_indexes = p.input_indexes := by
  unfold pushPending; split <;> rfl

/-- The pending-push block never touches the section list. -/
theorem pushPending_sections (p : ParseSt) (t : Option Char) :
    (pushPending p t).template.sections = p.template.sections := by
  unfold pushPending; split <;> rfl

/-- The pending-push block preserves the index-map invariant. -/
theorem indexesInv_pushPending {p : ParseSt} (t : Option Char)
    (h : IndexesInv p) : IndexesInv (pushPending p t) := by
  intro kl hkl
  rw [pushPending_input_indexes] at hkl
  rw [pushPending_sections]
  exact h kl hkl

/-- Appending a strict upper bound to a strictly increasing list keeps it
strictly increasing. -/
theorem chain_append_lt : ∀ (l : List Nat) (n : Nat),
    List.Chain' (· < ·) l → (∀ i ∈ l, i < n) → List.Chain' (· < ·) (l ++ [n])
  | [], n, _, _ => List.chain'_singleton n
  | [a], n, _, hb =>
      List.chain'_cons.mpr ⟨hb a (List.mem_singleton.mpr rfl), List.chain'_singleton n⟩
  | a :: b :: l, n, hc, hb =>
      List.chain'_cons.mpr
        ⟨(List.chain'_cons.mp hc).1,
          chain_append_lt (b :: l) n (List.chain'_cons.mp hc).2
            (fun i hi => hb i (List.mem_cons_of_mem a hi))⟩

/-- Recording a fresh section index `n` under key `k` preserves the
invariant, against the grown section list. -/
theorem insertIndex_inv : ∀ (l : List (Nat × List Nat)) (k n : Nat),
    (∀ kl ∈ l, List.Chain' (· < ·) kl.2 ∧ ∀ i ∈ kl.2, i < n) →
    ∀ kl ∈ insertIndex k n l,
      List.Chain' (· < ·) kl.2 ∧ ∀ i ∈ kl.2, i < n + 1
  | [], k, n, _ => by
      intro kl hkl
      simp only [insertIndex, List.mem_singleton] at hkl
      subst hkl
      exact ⟨List.chain'_singleton n, by simp⟩
  | (k2, vs) :: rest, k, n, h => by
      intro kl hkl
      unfold insertIndex at hkl
      split at hkl
      · rcases List.mem_cons.mp hkl with hkl | hkl
        · subst hkl
          obtain ⟨h1, h2⟩ := h (k2, vs) (List.mem_cons_self _ _)
          refine ⟨chain_append_lt vs n h1 h2, fun i hi => ?_⟩
          rcases List.mem_append.mp hi with hi | hi
          · exact Nat.lt_succ_of_lt (h2 i hi)
          · rw [List.mem_singleton] at hi; omega
        · obtain ⟨h1, h2⟩ := h kl (List.mem_cons_of_mem _ hkl)
          exact ⟨h1, fun i hi => Nat.lt_succ_of_lt (h2 i hi)⟩
      · rcases List.mem_cons.mp hkl with hkl | hkl
        · subst hkl
          obtain ⟨h1, h2⟩ := h (k2, vs) (List.mem_cons_self _ _)
          exact ⟨h1, fun i hi => Nat.lt_succ_of_lt (h2 i hi)⟩
        · exact insertIndex_inv rest k n
            (fun kl2 h2 => h kl2 (List.mem_cons_of_mem _ h2)) kl hkl

/-- One step of the scanning loop preserves the index-map invariant. -/
theorem step_inv {p p' : ParseSt} {c : Char}
    (h : step p c = Except.ok p') (hinv : IndexesInv p) : IndexesInv p' := by
  unfold step at h
  split at h
  · cases h
    exact indexesInv_pushPending _ hinv
  · split at h
    · cases h
      exact hinv
    · split at h
      · -- Literal phase
        split at h
        · cases h
          split
          · apply indexesInv_pushPending
            intro kl hkl
            obtain ⟨h1, h2⟩ := hinv kl hkl
            refine ⟨h1, fun i hi => ?_⟩
            simp only [push_literal, List.length_append, List.length_singleton]
            exact Nat.lt_succ_of_lt (h2 i hi)
          · exact indexesInv_pushPending _ hinv
        · split at h
          · exact Except.noConfusion h
          · cases h
            exact indexesInv_pushPending _ hinv
      · -- Default phase
        split at h
        · exact Except.noConfusion h
        · split at h
          · cases h
            exact indexesInv_pushPending _ hinv
          · split at h
            · cases h
              apply indexesInv_pushPending
              intro kl hkl
              obtain ⟨h1, h2⟩ := hinv kl hkl
              refine ⟨h1, fun i hi => ?_⟩
              simp only [push_input, List.length_append, List.length_singleton]
              exact Nat.lt_succ_of_lt (h2 i hi)
            · cases h
              exact indexesInv_pushPending _ hinv
      · -- Description phase
        split at h
        · exact Except.noConfusion h
        · split at h
          · cases h
            exact indexesInv_pushPending _ hinv
          · split at h
            · cases h
              apply indexesInv_pushPending
              intro kl hkl
              obtain ⟨h1, h2⟩ := hinv kl hkl
              refine ⟨h1, fun i hi => ?_⟩
              simp only [push_input, List.length_append, List.length_singleton]
              exact Nat.lt_succ_of_lt (h2 i hi)
            · cases h
              exact indexesInv_pushPending _ hinv
      · -- Index phase
        split at h
        · exact Except.noConfusion h
        · split at h
          · exact Except.noConfusion h
          · split at h
            · split at h
              · exact Except.noConfusion h
              · split at h
                · exact Except.noConfusion h
                · cases h
                  apply indexesInv_pushPending
                  intro kl hkl
                  have hres := insertIndex_inv p.input_indexes _
                    p.template.sections.length (fun kl2 h2 => hinv kl2 h2) kl hkl
                  refine ⟨hres.1, fun j hj => ?_⟩
                  simp only [push_input, List.length_append, List.length_singleton]
                  exact hres.2 j hj
            · split at h
              · exact Except.noConfusion h
              · cases h
                exact indexesInv_pushPending _ hinv

/-- The whole scanning loop preserves the index-map invariant. -/
theorem parseChars_inv : ∀ (cs : List Char) (p q : ParseSt),
    parseChars p cs = Except.ok q → IndexesInv p → IndexesInv q
  | [], p, q, h, hp => by
      simp only [parseChars] at h
      injection h with h
      subst h
      exact hp
  | c :: cs, p, q, h, hp => by
      unfold parseChars at h
      split at h
      · exact Except.noConfusion h
      · rename_i p2 heq
        exact parseChars_inv cs p2 q h (step_inv heq hp)

/-- The loop starts with an empty, trivially well-formed index map. -/
theorem indexesInv_init : IndexesInv initSt := by
  intro kl hkl
  simp [initSt] at hkl

/-- The gap-fill loop only appends groups: it keeps whatever was already
emitted. -/
theorem fillWhile_mem {g : List Nat} : ∀ (key : Nat) (order : List (List Nat))
    (u : List Nat), g ∈ order → g ∈ (fillWhile key order u).1
  | _, _, [], hg => hg
  | key, order, x :: rest, hg => by
      unfold fillWhile
      split
      · exact fillWhile_mem key (order ++ [[x]]) rest (List.mem_append_left _ hg)
      · exact hg

/-- Order resolution only appends groups after the ones already emitted. -/
theorem resolveOrder_mem_of_mem : ∀ (pairs : List (Nat × List Nat))
    (order : List (List Nat)) (u : List Nat) (g : List Nat),
    g ∈ order → g ∈ resolveOrder pairs order u
  | [], _, _, _, hg => List.mem_append_left _ hg
  | (k, _secs) :: rest, order, u, g, hg =>
      resolveOrder_mem_of_mem rest _ _ g
        (List.mem_append_left _ (fillWhile_mem k order u hg))

/-- Every explicitly keyed group is emitted, intact, as one group of the
resolved navigation order. -/
theorem resolveOrder_mem : ∀ (pairs : List (Nat × List Nat))
    (order : List (List Nat)) (u : List Nat) (k : Nat) (g : List Nat),
    (k, g) ∈ pairs → g ∈ resolveOrder pairs order u
  | [], _, _, _, _, h => absurd h (List.not_mem_nil _)
  | (k2, secs) :: rest, order, u, k, g, h => by
      rcases List.mem_cons.mp h with heq | hmem
      · injection heq with hk hg
        subst hg
        exact resolveOrder_mem_of_mem rest _ _ _
          (List.mem_append_right _ (List.mem_singleton.mpr rfl))
      · exact resolveOrder_mem rest _ _ k g hmem

/-- Sorted insertion keeps the inserted pair. -/
theorem sortInsert_mem_self (q : Nat × List Nat) :
    ∀ l : List (Nat × List Nat), q ∈ sortInsert q l
  | [] => List.mem_singleton.mpr rfl
  | r :: rest => by
      unfold sortInsert
      split
      · exact List.mem_cons_self _ _
      · exact List.mem_cons_of_mem _ (sortInsert_mem_self q rest)

/-- Sorted insertion keeps all previous pairs. -/
theorem mem_sortInsert_of_mem {x : Nat × List Nat} (q : Nat × List Nat) :
    ∀ l : List (Nat × List Nat), x ∈ l → x ∈ sortInsert q l
  | r :: rest, hx => by
      unfold sortInsert
      split
      · exact List.mem_cons_of_mem _ hx
      · rcases List.mem_cons.mp hx with hx | hx
        · subst hx
          exact List.mem_cons_self _ _
        · exact List.mem_cons_of_mem _ (mem_sortInsert_of_mem q rest hx)

/-- Sorting the `(key, group)` pairs loses no pair. -/
theorem mem_sortByKey {x : Nat × List Nat} :
    ∀ l : List (Nat × List Nat), x ∈ l → x ∈ sortByKey l
  | a :: rest, h => by
      show x ∈ sortInsert a (sortByKey rest)
      rcases List.mem_cons.mp h with hx | hx
      · subst hx
        exact sortInsert_mem_self x (sortByKey rest)
      · exact mem_sortInsert_of_mem a (sortByKey rest) (mem_sortByKey rest hx)

/-- Claim C1: the spec's balance invariant ("for any input, if parsing
succeeds, `sections` ranges partition `display` exactly") fails on the code:
the scanning loop never flushes the final literal run (a `Literal` section is
pushed only when a `[` is met), so the one-character input "a" parses
successfully to a document whose display is "a" but whose section list is
empty — the ranges leave the whole display uncovered. -/
theorem c1_balance_invariant_fails :
    parse ['a'] = Except.ok ⟨['a'], [], []⟩ ∧
      rangesPartition ⟨['a'], [], []⟩ = false :=
  ⟨rfl, rfl⟩

/-- Claim C2: the spec says `"prefix [default"` (an input ending while the
parser is still inside a field phase) fails with the unbalanced-delimiters
error, but `fn parse` performs no end-of-input check on `input_state`: it
returns `Ok` with the open field silently dropped (only the leading literal
section survives, while the default text already sits in the display). -/
theorem c2_unterminated_field_accepted :
    parse "prefix [default".toList =
      Except.ok ⟨"prefix default".toList, [TemplateSection.Literal (0, 7)], []⟩ :=
  rfl

/-- Claim C3: gap-fill ordering fails on the code.  For "[X] [Y##2] [Z]" the
claim (and the module documentation's own example) requires navigation order
X, Y, Z — sections [[0], [2], [4]] — but the gap-fill `while` condition
compares the key against the number of groups already emitted the wrong way
around (`input_order < template.input_order.len()`), which is false for
every admissible key, so all unnumbered fields trail: the code returns
[[2], [0], [4]], i.e. Y, X, Z. -/
theorem c3_gap_fill_not_applied :
    parse "[X] [Y##2] [Z]".toList =
      Except.ok ⟨"X Y Z".toList,
        [TemplateSection.Input (0, 1) [], TemplateSection.Literal (1, 2),
          TemplateSection.Input (2, 3) [], TemplateSection.Literal (3, 4),
          TemplateSection.Input (4, 5) []],
        [[2], [0], [4]]⟩ :=
  rfl

/-- Claim C4: the spec says parsing plain text with no field syntax yields a
single `Literal` section spanning the whole display string, but the code
never pushes the trailing literal run, so "abc" parses to a document with
display "abc" and an empty section list. -/
theorem c4_trailing_literal_dropped :
    parse "abc".toList = Except.ok ⟨"abc".toList, [], []⟩ :=
  rfl

/-- Claim C5: the spec says an explicit tab order of zero ("[a#d#0]") fails
with `InvalidNumber` (whose message is "invalid input index: must be a
positive integer"), but the code's zero-index arm returns `MissingNumber`
(whose message "no input index given" does not describe this input): the two
variants are swapped at the use sites. -/
theorem c5_zero_order_wrong_error :
    parse "[a#d#0]".toList = Except.error Error.MissingNumber :=
  rfl

/-- Claim C6: the spec says a second separator with no digits ("[a#d#]")
fails with `MissingNumber` (message "no input index given: remove the second
'#' for automatic index"), but the code's empty-index arm returns
`InvalidNumber`: the two variants are swapped at the use sites. -/
theorem c6_empty_order_wrong_error :
    parse "[a#d#]".toList = Except.error Error.InvalidNumber :=
  rfl

/-- Claim C7 counterexample: the claim says a backslash followed by any
non-reserved character yields a literal backslash followed by that character
at every position of the input, but inside the `Index` phase the character
after the backslash is fed to the digit reader, so "[a#d#\x]" fails with
`InvalidNumber` instead of producing a literal "\x". -/
theorem c7_escape_counterexample :
    parse "[a#d#\\x]".toList = Except.error Error.InvalidNumber :=
  rfl

/-- Claim C7 (amended): escape handling, stated on one loop step following
a backslash.  A backslash followed by one of the four reserved characters
`[`, `]`, `#`, `\` emits exactly that character into the display string in
every parser phase, consuming the backslash, changing no other component of
the parser state (in particular no section boundary and no phase
transition).  A backslash followed by any other character yields a literal
backslash followed by that character when the parser is scanning displayed
text, i.e. in the `Literal` or `Default` phase (the amendment: in the
`Index` phase a non-digit instead fails, see the counterexample, and in the
`Description` phase the character joins the description, not the display). -/
theorem c7_escape_behaviour (p : ParseSt) (c : Char) (hesc : p.is_escaped = false) :
    (isReserved c = true →
      Except.bind (step p '\\') (fun q => step q c) =
        Except.ok { p with template := { p.template with
          display := p.template.display ++ [c] } }) ∧
    (isReserved c = false →
      ∀ start, p.input_state = State.Literal start ∨ p.input_state = State.Default start →
        Except.bind (step p '\\') (fun q => step q c) =
          Except.ok { p with template := { p.template with
            display := p.template.display ++ ['\\', c] } }) := by
  have h1 : step p '\\' = Except.ok { p with is_escaped := true } := by
    unfold step
    rw [hesc]
    simp
  constructor
  · intro hres
    rw [h1]
    show step { p with is_escaped := true } c = _
    unfold step
    simp only [hres, Bool.and_true]
    simp [pushPending, hesc]
  · intro hres start hst
    have hnr : ((¬c = '[' ∧ ¬c = ']') ∧ ¬c = '#') ∧ ¬c = '\\' := by
      simpa [isReserved] using hres
    rw [h1]
    show step { p with is_escaped := true } c = _
    unfold step
    simp only [hres, Bool.and_false, Bool.false_eq_true, if_false, hnr.2, ite_false]
    rcases hst with hst | hst <;>
      · rw [show ({ p with is_escaped := true } : ParseSt).input_state = p.input_state from rfl, hst]
        simp [hnr.1.1.1, hnr.1.1.2, hnr.1.2, pushPending, hesc, hst]

/-- Claim C7 witness: at the initial parser state, `\[` emits a literal `[`
and `\x` emits a literal backslash followed by `x`. -/
theorem c7_escape_behaviour_witness :
    Except.bind (step initSt '\\') (fun q => step q '[') =
      Except.ok { initSt with template := { initSt.template with display := ['['] } } ∧
    Except.bind (step initSt '\\') (fun q => step q 'x') =
      Except.ok { initSt with template := { initSt.template with display := ['\\', 'x'] } } :=
  ⟨(c7_escape_behaviour initSt '[' rfl).1 rfl,
    (c7_escape_behaviour initSt 'x' rfl).2 rfl 0 (Or.inl rfl)⟩

/-- Claim C8: duplicate order grouping.  For every input whose scan
succeeds, every group of section indices recorded under one explicit
tab-order key — in particular any key declared by two or more fields —
appears intact as a single group of the parsed document's navigation order,
and its indices are strictly increasing, which is declaration (left to
right) order because the scanner hands out section indices in source
order. -/
theorem c8_duplicate_order_grouping (s : List Char) (p : ParseSt)
    (t : TemplatedCommand) (k : Nat) (l : List Nat)
    (hloop : parseChars initSt s = Except.ok p)
    (hparse : parse s = Except.ok t)
    (hmem : (k, l) ∈ p.input_indexes)
    (_hdup : 2 ≤ l.length) :
    l ∈ t.input_order ∧ List.Chain' (· < ·) l := by
  have hchain := (parseChars_inv s initSt p hloop indexesInv_init (k, l) hmem).1
  unfold parse at hparse
  rw [hloop] at hparse
  injection hparse with hparse
  subst hparse
  exact ⟨resolveOrder_mem _ _ _ k l (mem_sortByKey _ hmem), hchain⟩

/-- Claim C8 witness: in "[a##5][b##5]" both fields declare order 5; the
scan records them as the group [0, 1], and the parsed document's navigation
order contains exactly that group. -/
theorem c8_duplicate_order_grouping_witness :
    [0, 1] ∈ (TemplatedCommand.mk ['a', 'b']
        [TemplateSection.Input (0, 1) [], TemplateSection.Input (1, 2) []]
        [[0, 1]]).input_order ∧
      List.Chain' (· < ·) ([0, 1] : List Nat) :=
  c8_duplicate_order_grouping "[a##5][b##5]".toList
    (ParseSt.mk false (State.Literal 2) [] [(5, [0, 1])]
      (TemplatedCommand.mk ['a', 'b']
        [TemplateSection.Input (0, 1) [], TemplateSection.Input (1, 2) []] []))
    (TemplatedCommand.mk ['a', 'b']
      [TemplateSection.Input (0, 1) [], TemplateSection.Input (1, 2) []]
      [[0, 1]])
    5 [0, 1] rfl rfl (List.mem_singleton.mpr rfl) (by decide)

/-- Claim C9: the numeric accumulator contract of
`IncrementalU8::read_digit`.  For any accumulator value and character,
reading a non-digit fails with `InvalidNumber`; reading a digit produces the
new value `v * 10 + digit` when it stays within the u8 bound 255, and fails
with `OverflowingNumber` exactly when that result exceeds 255.  (The
operation is a pure function of its arguments: the embedding returns a new
value and mutates nothing.) -/
theorem c9_read_digit_contract (v : Nat) (c : Char) :
    (c.isDigit = false → read_digit v c = Except.error Error.InvalidNumber) ∧
    (c.isDigit = true →
      (v * 10 + (c.toNat - 48) ≤ 255 →
        read_digit v c = Except.ok (v * 10 + (c.toNat - 48))) ∧
      (255 < v * 10 + (c.toNat - 48) →
        read_digit v c = Except.error Error.OverflowingNumber)) := by
  unfold read_digit
  by_cases hd : c.isDigit
  · simp only [hd, if_true, Bool.true_eq_false, false_implies, true_implies, true_and]
    constructor
    · intro hle
      have h1 : v * 10 ≤ 255 := by omega
      simp [h1, Option.bind, hle]
    · intro hgt
      by_cases h1 : v * 10 ≤ 255
      · have h2 : ¬(v * 10 + (c.toNat - 48) ≤ 255) := by omega
        simp [h1, Option.bind, h2]
      · simp [h1, Option.bind]
  · simp [hd]

/-- Claim C9 witness: reading `7` onto 3 gives 37; reading `0` onto 26
overflows the u8 bound; reading `x` is rejected as a non-digit. -/
theorem c9_read_digit_contract_witness :
    read_digit 3 '7' = Except.ok 37 ∧
      read_digit 26 '0' = Except.error Error.OverflowingNumber ∧
      read_digit 0 'x' = Except.error Error.InvalidNumber :=
  ⟨((c9_read_digit_contract 3 '7').2 (by decide)).1 (by decide),
    ((c9_read_digit_contract 26 '0').2 (by decide)).2 (by decide),
    (c9_read_digit_contract 0 'x').1 (by decide)⟩

/-- Claim C10: an unescaped `#` in literal text is not an error.  In the
`Literal` phase with the escape flag clear, one step on `#` succeeds and
emits `#` verbatim into the display string, leaving every other component of
the parser state — phase, sections, unassigned list, index map — unchanged,
even though `#` is listed among the reserved characters. -/
theorem c10_literal_hash (p : ParseSt) (start : Nat)
    (hesc : p.is_escaped = false) (hst : p.input_state = State.Literal start) :
    step p '#' =
      Except.ok { p with template := { p.template with
        display := p.template.display ++ ['#'] } } := by
  unfold step
  rw [hesc, hst]
  simp [pushPending, hesc, hst]

/-- Claim C10 witness: at the initial parser state, a `#` is accepted and
lands in the display string. -/
theorem c10_literal_hash_witness :
    step initSt '#' =
      Except.ok { initSt with template := { initSt.template with display := ['#'] } } :=
  c10_literal_hash initSt 0 rfl rfl

end How
